import Mathlib

/-!
Verification development for the consensus change-notification subsystem
(`modules/consensus/subscribe.go`): the change log, the change computer
`computeConsensusChange`, the subscriber notifier, and the subscription
bootstrap operations, shallowly embedded as pure Lean functions.

Go's `build.DEBUG` flag is passed explicitly as a `debug : Bool` argument;
a Go `panic` is modelled as an `Except.error` that aborts the operation.
-/

set_option autoImplicit false
set_option linter.unusedVariables false

/-- Opaque fixed-size block identifier (`types.BlockID`). -/
abbrev BlockID := Nat

/-- A block (`types.Block`); its content is abstracted to the identifier
that `Block.ID()` would hash to. The Go zero value has `id = 0`. -/
structure Block where
  id : BlockID := 0
  deriving Repr, DecidableEq, Inhabited

/-- `(b types.Block).ID()`: the identifier of a block. -/
def Block.ID (b : Block) : BlockID := b.id

/-- `modules.DiffDirection`: in Go a `bool` with `DiffApply = true` and
`DiffRevert = false`. -/
inductive DiffDirection where
  | apply
  | revert
  deriving Repr, DecidableEq, Inhabited

/-- Go's boolean negation `!d` on a `DiffDirection`. -/
def DiffDirection.invert : DiffDirection → DiffDirection
  | .apply => .revert
  | .revert => .apply

/-- `modules.SiacoinOutputDiff`: a direction plus the remaining fields
(output id and output), abstracted to an opaque payload. -/
structure SiacoinOutputDiff where
  Direction : DiffDirection
  payload : Nat
  deriving Repr, DecidableEq, Inhabited

/-- `modules.FileContractDiff`. -/
structure FileContractDiff where
  Direction : DiffDirection
  payload : Nat
  deriving Repr, DecidableEq, Inhabited

/-- `modules.SiafundOutputDiff`. -/
structure SiafundOutputDiff where
  Direction : DiffDirection
  payload : Nat
  deriving Repr, DecidableEq, Inhabited

/-- `modules.DelayedSiacoinOutputDiff`. -/
structure DelayedSiacoinOutputDiff where
  Direction : DiffDirection
  payload : Nat
  deriving Repr, DecidableEq, Inhabited

/-- `modules.SiafundPoolDiff`. -/
structure SiafundPoolDiff where
  Direction : DiffDirection
  payload : Nat
  deriving Repr, DecidableEq, Inhabited

/-- The stored block record returned by `getBlockMap` (the `processedBlock`):
the block plus the five diff sequences recorded when it was applied.
The Go zero value (all slices nil, zero block) is the `default`. -/
structure processedBlock where
  Block : Block := {}
  SiacoinOutputDiffs : List SiacoinOutputDiff := []
  FileContractDiffs : List FileContractDiff := []
  SiafundOutputDiffs : List SiafundOutputDiff := []
  DelayedSiacoinOutputDiffs : List DelayedSiacoinOutputDiff := []
  SiafundPoolDiffs : List SiafundPoolDiff := []
  deriving Repr, DecidableEq, Inhabited

/-- `modules.ConsensusChange`: the materialized change delivered to
subscribers. The Go zero value (all slices nil) is the `default`. -/
structure ConsensusChange where
  RevertedBlocks : List Block := []
  AppliedBlocks : List Block := []
  SiacoinOutputDiffs : List SiacoinOutputDiff := []
  FileContractDiffs : List FileContractDiff := []
  SiafundOutputDiffs : List SiafundOutputDiff := []
  DelayedSiacoinOutputDiffs : List DelayedSiacoinOutputDiff := []
  SiafundPoolDiffs : List SiafundPoolDiff := []
  deriving Repr, DecidableEq, Inhabited

/-- A `changeEntry`: the reverted and applied block ids of one transition. -/
structure changeEntry where
  revertedBlocks : List BlockID := []
  appliedBlocks : List BlockID := []
  deriving Repr, DecidableEq, Inhabited

/-- The read snapshot of the Block Store visible through one bolt
transaction: `getBlockMap`, `blockHeight` and `getPath`. -/
structure BlockStore where
  blockMap : BlockID → Option processedBlock
  height : Nat
  path : Nat → Option BlockID

/-- Errors of the embedded operations: the changelog bounds error, and a
Go `panic` (only raised when `debug` is set). -/
inductive CSError where
  | boundsError
  | storePanic
  deriving Repr, DecidableEq

/-- `getBlockMap(tx, id)`: fetch the stored block record for `id`. -/
def getBlockMap (tx : BlockStore) (id : BlockID) : Option processedBlock :=
  tx.blockMap id

/-- `blockHeight(tx)`: the current chain height. -/
def blockHeight (tx : BlockStore) : Nat := tx.height

/-- `getPath(tx, h)`: the id of the block at height `h` on the best path. -/
def getPath (tx : BlockStore) (h : Nat) : Option BlockID := tx.path h

/-- The `revertedBlock, err := getBlockMap(...); if build.DEBUG && err != nil
{ panic(err) }` pattern: with `debug` a missing block panics, otherwise the
code silently continues with the Go zero value of the record. -/
def getBlockChecked (debug : Bool) (tx : BlockStore) (id : BlockID) :
    Except CSError processedBlock :=
  match getBlockMap tx id with
  | some pb => .ok pb
  | none => if debug then .error .storePanic else .ok default

/-- Body of the loop over `cs.changeLog[i].revertedBlocks`: append the block
to `RevertedBlocks`; append the four directional diff sequences iterated from
the last index down to 0 with `Direction` negated; append the siafund pool
diffs iterated from the last index down to 0 with `Direction` set to
`modules.DiffRevert`. A countdown loop that appends is written as
`reverse.map`. -/
def revertedBlockChanges (cc : ConsensusChange) (revertedBlock : processedBlock) :
    ConsensusChange :=
  { cc with
    RevertedBlocks := cc.RevertedBlocks ++ [revertedBlock.Block],
    SiacoinOutputDiffs := cc.SiacoinOutputDiffs ++
      revertedBlock.SiacoinOutputDiffs.reverse.map
        (fun scod => { scod with Direction := scod.Direction.invert }),
    FileContractDiffs := cc.FileContractDiffs ++
      revertedBlock.FileContractDiffs.reverse.map
        (fun fcd => { fcd with Direction := fcd.Direction.invert }),
    SiafundOutputDiffs := cc.SiafundOutputDiffs ++
      revertedBlock.SiafundOutputDiffs.reverse.map
        (fun sfod => { sfod with Direction := sfod.Direction.invert }),
    DelayedSiacoinOutputDiffs := cc.DelayedSiacoinOutputDiffs ++
      revertedBlock.DelayedSiacoinOutputDiffs.reverse.map
        (fun dscod => { dscod with Direction := dscod.Direction.invert }),
    SiafundPoolDiffs := cc.SiafundPoolDiffs ++
      revertedBlock.SiafundPoolDiffs.reverse.map
        (fun sfpd => { sfpd with Direction := DiffDirection.revert }) }

/-- Body of the loop over `cs.changeLog[i].appliedBlocks`: append the block
to `AppliedBlocks` and all five diff sequences in stored order, directions
unchanged. -/
def appliedBlockChanges (cc : ConsensusChange) (appliedBlock : processedBlock) :
    ConsensusChange :=
  { cc with
    AppliedBlocks := cc.AppliedBlocks ++ [appliedBlock.Block],
    SiacoinOutputDiffs := cc.SiacoinOutputDiffs ++ appliedBlock.SiacoinOutputDiffs,
    FileContractDiffs := cc.FileContractDiffs ++ appliedBlock.FileContractDiffs,
    SiafundOutputDiffs := cc.SiafundOutputDiffs ++ appliedBlock.SiafundOutputDiffs,
    DelayedSiacoinOutputDiffs := cc.DelayedSiacoinOutputDiffs ++
      appliedBlock.DelayedSiacoinOutputDiffs,
    SiafundPoolDiffs := cc.SiafundPoolDiffs ++ appliedBlock.SiafundPoolDiffs }

/-- `(cs *ConsensusSet) computeConsensusChange(tx, i)`: bounds-check `i`
against the change log, then fold the reverted-block loop and then the
applied-block loop over the entry, starting from the zero
`ConsensusChange`. -/
def computeConsensusChange (debug : Bool) (tx : BlockStore)
    (changeLog : List changeEntry) (i : Int) : Except CSError ConsensusChange :=
  if h : i < 0 ∨ i ≥ (changeLog.length : Int) then
    .error .boundsError
  else
    let entry := changeLog.get ⟨i.toNat, by omega⟩
    do
      let cc ← entry.revertedBlocks.foldlM
        (fun cc revertedBlockID => do
          let revertedBlock ← getBlockChecked debug tx revertedBlockID
          pure (revertedBlockChanges cc revertedBlock)) {}
      entry.appliedBlocks.foldlM
        (fun cc appliedBlockID => do
          let appliedBlock ← getBlockChecked debug tx appliedBlockID
          pure (appliedBlockChanges cc appliedBlock)) cc

deriving instance DecidableEq for Except

/-- A full subscriber (`modules.ConsensusSetSubscriber`), abstracted to an
identifier; its single capability `ProcessConsensusChange` is modelled by
recording the delivered payloads. -/
abbrev Subscriber := Nat

/-- A digest subscriber (`modules.ConsensusSetDigestSubscriber`). -/
abbrev DigestSubscriber := Nat

/-- The fields of `ConsensusSet` this subsystem touches: the store snapshot
reachable through `cs.db`, the change log, and the two subscriber lists. -/
structure ConsensusSet where
  db : BlockStore
  changeLog : List changeEntry := []
  subscribers : List Subscriber := []
  digestSubscribers : List DigestSubscriber := []

/-- `(cs *ConsensusSet) ConsensusChange(i)` (the public query): run
`computeConsensusChange` inside a read transaction; on error return the zero
change with the error, otherwise the computed change. -/
def ConsensusChangeQuery (debug : Bool) (cs : ConsensusSet) (i : Int) :
    Except CSError ConsensusChange :=
  match computeConsensusChange debug cs.db cs.changeLog i with
  | .error e => .error e
  | .ok cc => .ok cc

/-- One subscriber callback made by the notifier, in the order made. -/
inductive NotifyEvent where
  | change (sub : Subscriber) (cc : ConsensusChange)
  | digest (sub : DigestSubscriber) (revertedIDs appliedIDs : List BlockID)
  deriving Repr, DecidableEq

/-- `(cs *ConsensusSet) readlockUpdateSubscribers(ce)`: compute the change at
index `len(cs.changeLog)-1` (the argument `ce` is never read); on error panic
when `debug`, else keep the zero change; call `ProcessConsensusChange(cc)` on
every full subscriber in order, then build the reverted/applied id lists from
`cc` and call `ProcessConsensusDigest` on every digest subscriber in order. -/
def readlockUpdateSubscribers (debug : Bool) (cs : ConsensusSet) (ce : changeEntry) :
    Except CSError (List NotifyEvent) :=
  let res := computeConsensusChange debug cs.db cs.changeLog
    ((cs.changeLog.length : Int) - 1)
  match res with
  | .error e =>
      if debug then .error e
      else
        let cc : ConsensusChange := {}
        .ok (cs.subscribers.map (fun s => NotifyEvent.change s cc) ++
          cs.digestSubscribers.map (fun d =>
            NotifyEvent.digest d (cc.RevertedBlocks.map Block.ID)
              (cc.AppliedBlocks.map Block.ID)))
  | .ok cc =>
      .ok (cs.subscribers.map (fun s => NotifyEvent.change s cc) ++
        cs.digestSubscribers.map (fun d =>
          NotifyEvent.digest d (cc.RevertedBlocks.map Block.ID)
            (cc.AppliedBlocks.map Block.ID)))

/-- The backfill loop of `ConsensusSetSubscribe`: for each listed index,
compute the change and deliver it; a `debug` panic inside the computation
aborts the loop. Returns the payloads delivered, in delivery order. -/
def backfillChanges (debug : Bool) (tx : BlockStore) (changeLog : List changeEntry) :
    List Nat → Except CSError (List ConsensusChange)
  | [] => .ok []
  | i :: rest => do
      let cc ← computeConsensusChange debug tx changeLog ((i : Nat) : Int)
      let ccs ← backfillChanges debug tx changeLog rest
      pure (cc :: ccs)

/-- `(cs *ConsensusSet) ConsensusSetSubscribe(subscriber)`: append the
subscriber to `cs.subscribers`, then inside one read transaction deliver
`ProcessConsensusChange` for every change-log index `0..N-1` in order. -/
def ConsensusSetSubscribe (debug : Bool) (cs : ConsensusSet) (subscriber : Subscriber) :
    ConsensusSet × Except CSError (List ConsensusChange) :=
  let cs' := { cs with subscribers := cs.subscribers ++ [subscriber] }
  (cs', backfillChanges debug cs.db cs.changeLog (List.range cs.changeLog.length))

/-- The path-collection loop of `ConsensusSetDigestSubscribe`: for each listed
height fetch `getPath`; a missing path entry aborts with the store error. -/
def buildCurrentPath (tx : BlockStore) : List Nat → Option (List BlockID)
  | [] => some []
  | h :: rest => do
      let id ← getPath tx h
      let restPath ← buildCurrentPath tx rest
      pure (id :: restPath)

/-- `(cs *ConsensusSet) ConsensusSetDigestSubscribe(subscriber)`: append the
subscriber to `cs.digestSubscribers`, read the whole current best path from
height 0 to `blockHeight(tx)` inside one read transaction, and deliver one
`ProcessConsensusDigest(nil, currentPath)`. If a `getPath` lookup fails the
transaction returns the error before delivering: with `debug` this panics,
otherwise the subscriber silently receives no baseline call. -/
def ConsensusSetDigestSubscribe (debug : Bool) (cs : ConsensusSet)
    (subscriber : DigestSubscriber) :
    ConsensusSet × Except CSError (List (List BlockID × List BlockID)) :=
  let cs' := { cs with digestSubscribers := cs.digestSubscribers ++ [subscriber] }
  match buildCurrentPath cs.db (List.range (blockHeight cs.db + 1)) with
  | some currentPath => (cs', .ok [([], currentPath)])
  | none => (cs', if debug then .error .storePanic else .ok [])

/-! ### Specification-level description of the change computer -/

/-- Bind on `Except` applied to a success. -/
@[simp] theorem exceptOkBind {ε α β : Type} (a : α) (f : α → Except ε β) :
    (Except.ok a >>= f : Except ε β) = f a := rfl

/-- Bind on `Except` applied to a failure. -/
@[simp] theorem exceptErrorBind {ε α β : Type} (e : ε) (f : α → Except ε β) :
    ((Except.error e : Except ε α) >>= f) = Except.error e := rfl

/-- The stored record the computer ends up using for `id`: the stored block
when present, else the Go zero value. -/
def pbOf (tx : BlockStore) (id : BlockID) : processedBlock :=
  (getBlockMap tx id).getD default

/-- The records used for the entry's reverted block ids, in listed order. -/
def revertedProcessedBlocks (tx : BlockStore) (entry : changeEntry) :
    List processedBlock :=
  entry.revertedBlocks.map (pbOf tx)

/-- The records used for the entry's applied block ids, in listed order. -/
def appliedProcessedBlocks (tx : BlockStore) (entry : changeEntry) :
    List processedBlock :=
  entry.appliedBlocks.map (pbOf tx)

/-- The spec's description of the consensus change computed for one entry:
every output sequence is the reverted contribution (per reverted block, the
stored sequence reversed, directions inverted — pool diffs instead forced to
`revert`) followed by the applied contribution (stored order, directions
unchanged). -/
def ccSpec (tx : BlockStore) (entry : changeEntry) : ConsensusChange :=
  { RevertedBlocks := (revertedProcessedBlocks tx entry).map (fun pb => pb.Block),
    AppliedBlocks := (appliedProcessedBlocks tx entry).map (fun pb => pb.Block),
    SiacoinOutputDiffs :=
      (revertedProcessedBlocks tx entry).flatMap (fun pb =>
        pb.SiacoinOutputDiffs.reverse.map
          (fun d => { d with Direction := d.Direction.invert }))
      ++ (appliedProcessedBlocks tx entry).flatMap (fun pb => pb.SiacoinOutputDiffs),
    FileContractDiffs :=
      (revertedProcessedBlocks tx entry).flatMap (fun pb =>
        pb.FileContractDiffs.reverse.map
          (fun d => { d with Direction := d.Direction.invert }))
      ++ (appliedProcessedBlocks tx entry).flatMap (fun pb => pb.FileContractDiffs),
    SiafundOutputDiffs :=
      (revertedProcessedBlocks tx entry).flatMap (fun pb =>
        pb.SiafundOutputDiffs.reverse.map
          (fun d => { d with Direction := d.Direction.invert }))
      ++ (appliedProcessedBlocks tx entry).flatMap (fun pb => pb.SiafundOutputDiffs),
    DelayedSiacoinOutputDiffs :=
      (revertedProcessedBlocks tx entry).flatMap (fun pb =>
        pb.DelayedSiacoinOutputDiffs.reverse.map
          (fun d => { d with Direction := d.Direction.invert }))
      ++ (appliedProcessedBlocks tx entry).flatMap
          (fun pb => pb.DelayedSiacoinOutputDiffs),
    SiafundPoolDiffs :=
      (revertedProcessedBlocks tx entry).flatMap (fun pb =>
        pb.SiafundPoolDiffs.reverse.map
          (fun d => { d with Direction := DiffDirection.revert }))
      ++ (appliedProcessedBlocks tx entry).flatMap (fun pb => pb.SiafundPoolDiffs) }

/-- A block lookup with `debug` off never fails: a missing record is replaced
by the zero value. -/
theorem getBlockChecked_false (tx : BlockStore) (id : BlockID) :
    getBlockChecked false tx id = .ok (pbOf tx id) := by
  unfold getBlockChecked pbOf
  cases getBlockMap tx id <;> simp

/-- A block lookup over a present record succeeds for either `debug` value. -/
theorem getBlockChecked_of_isSome (debug : Bool) (tx : BlockStore) (id : BlockID)
    (h : (getBlockMap tx id).isSome) :
    getBlockChecked debug tx id = .ok (pbOf tx id) := by
  obtain ⟨pb, hpb⟩ := Option.isSome_iff_exists.mp h
  unfold getBlockChecked pbOf
  simp [hpb]

/-- The per-block lookup-and-accumulate fold succeeds when every listed id is
present, and equals the pure fold over the fetched records. -/
theorem foldlM_getBlockChecked (debug : Bool) (tx : BlockStore)
    (step : ConsensusChange → processedBlock → ConsensusChange) :
    ∀ (ids : List BlockID) (cc : ConsensusChange),
      (∀ id ∈ ids, (getBlockMap tx id).isSome) →
      (ids.foldlM (fun cc id => do
          let pb ← getBlockChecked debug tx id
          pure (step cc pb)) cc)
        = .ok (ids.foldl (fun cc id => step cc (pbOf tx id)) cc) := by
  intro ids
  induction ids with
  | nil => intro cc _; rfl
  | cons id rest ih =>
    intro cc h
    have hid := getBlockChecked_of_isSome debug tx id (h id (by simp))
    rw [List.foldlM_cons]
    simp only [hid, exceptOkBind, pure_bind]
    rw [List.foldl_cons]
    exact ih _ (fun x hx => h x (by simp [hx]))

/-- With `debug` off the lookup-and-accumulate fold always succeeds. -/
theorem foldlM_getBlockChecked_false (tx : BlockStore)
    (step : ConsensusChange → processedBlock → ConsensusChange) :
    ∀ (ids : List BlockID) (cc : ConsensusChange),
      (ids.foldlM (fun cc id => do
          let pb ← getBlockChecked false tx id
          pure (step cc pb)) cc)
        = .ok (ids.foldl (fun cc id => step cc (pbOf tx id)) cc) := by
  intro ids
  induction ids with
  | nil => intro cc; rfl
  | cons id rest ih =>
    intro cc
    simp only [List.foldlM_cons]
    rw [getBlockChecked_false tx id]
    simp only [exceptOkBind, pure_bind, List.foldl_cons]
    exact ih _

/-- Folding the reverted-block loop body over a list of records appends, per
record in order: the block, the four stored diff sequences reversed with
inverted directions, and the pool diffs reversed with direction forced to
`revert`. -/
theorem foldl_revertedBlockChanges :
    ∀ (pbs : List processedBlock) (cc : ConsensusChange),
      pbs.foldl revertedBlockChanges cc =
        { RevertedBlocks := cc.RevertedBlocks ++ pbs.map (fun pb => pb.Block),
          AppliedBlocks := cc.AppliedBlocks,
          SiacoinOutputDiffs := cc.SiacoinOutputDiffs ++ pbs.flatMap (fun pb =>
            pb.SiacoinOutputDiffs.reverse.map
              (fun d => { d with Direction := d.Direction.invert })),
          FileContractDiffs := cc.FileContractDiffs ++ pbs.flatMap (fun pb =>
            pb.FileContractDiffs.reverse.map
              (fun d => { d with Direction := d.Direction.invert })),
          SiafundOutputDiffs := cc.SiafundOutputDiffs ++ pbs.flatMap (fun pb =>
            pb.SiafundOutputDiffs.reverse.map
              (fun d => { d with Direction := d.Direction.invert })),
          DelayedSiacoinOutputDiffs := cc.DelayedSiacoinOutputDiffs ++
            pbs.flatMap (fun pb =>
              pb.DelayedSiacoinOutputDiffs.reverse.map
                (fun d => { d with Direction := d.Direction.invert })),
          SiafundPoolDiffs := cc.SiafundPoolDiffs ++ pbs.flatMap (fun pb =>
            pb.SiafundPoolDiffs.reverse.map
              (fun d => { d with Direction := DiffDirection.revert })) } := by
  intro pbs
  induction pbs with
  | nil => intro cc; simp
  | cons pb rest ih =>
    intro cc
    rw [List.foldl_cons, ih]
    simp [revertedBlockChanges, List.append_assoc]

/-- Folding the applied-block loop body over a list of records appends, per
record in order: the block and the five stored diff sequences unchanged. -/
theorem foldl_appliedBlockChanges :
    ∀ (pbs : List processedBlock) (cc : ConsensusChange),
      pbs.foldl appliedBlockChanges cc =
        { RevertedBlocks := cc.RevertedBlocks,
          AppliedBlocks := cc.AppliedBlocks ++ pbs.map (fun pb => pb.Block),
          SiacoinOutputDiffs := cc.SiacoinOutputDiffs ++
            pbs.flatMap (fun pb => pb.SiacoinOutputDiffs),
          FileContractDiffs := cc.FileContractDiffs ++
            pbs.flatMap (fun pb => pb.FileContractDiffs),
          SiafundOutputDiffs := cc.SiafundOutputDiffs ++
            pbs.flatMap (fun pb => pb.SiafundOutputDiffs),
          DelayedSiacoinOutputDiffs := cc.DelayedSiacoinOutputDiffs ++
            pbs.flatMap (fun pb => pb.DelayedSiacoinOutputDiffs),
          SiafundPoolDiffs := cc.SiafundPoolDiffs ++
            pbs.flatMap (fun pb => pb.SiafundPoolDiffs) } := by
  intro pbs
  induction pbs with
  | nil => intro cc; simp
  | cons pb rest ih =>
    intro cc
    rw [List.foldl_cons, ih]
    simp [appliedBlockChanges, List.append_assoc]

/-- For an in-range index whose entry's block ids are all present in the
store, the change computer succeeds and returns exactly the change described
by `ccSpec`, for either `debug` value. -/
theorem computeConsensusChange_spec (debug : Bool) (tx : BlockStore)
    (changeLog : List changeEntry) (i : Int) (entry : changeEntry)
    (h0 : 0 ≤ i) (hget : changeLog[i.toNat]? = some entry)
    (hdb : ∀ id ∈ entry.revertedBlocks ++ entry.appliedBlocks,
      (getBlockMap tx id).isSome) :
    computeConsensusChange debug tx changeLog i = .ok (ccSpec tx entry) := by
  obtain ⟨hlen, hentry⟩ := List.getElem?_eq_some.mp hget
  have hno : ¬(i < 0 ∨ i ≥ (changeLog.length : Int)) := by omega
  unfold computeConsensusChange
  rw [dif_neg hno]
  simp only [List.get_eq_getElem, hentry]
  rw [foldlM_getBlockChecked debug tx revertedBlockChanges entry.revertedBlocks {}
    (fun id hid => hdb id (List.mem_append.mpr (Or.inl hid)))]
  simp only [exceptOkBind]
  rw [foldlM_getBlockChecked debug tx appliedBlockChanges entry.appliedBlocks _
    (fun id hid => hdb id (List.mem_append.mpr (Or.inr hid)))]
  rw [← List.foldl_map (pbOf tx) revertedBlockChanges,
    ← List.foldl_map (pbOf tx) appliedBlockChanges]
  rw [foldl_revertedBlockChanges, foldl_appliedBlockChanges]
  simp [ccSpec, revertedProcessedBlocks, appliedProcessedBlocks]

/-- With `debug` off the change computer succeeds on every in-range index,
whether or not the entry's blocks are present, substituting the zero record
for any missing block. -/
theorem computeConsensusChange_false_spec (tx : BlockStore)
    (changeLog : List changeEntry) (i : Int) (entry : changeEntry)
    (h0 : 0 ≤ i) (hget : changeLog[i.toNat]? = some entry) :
    computeConsensusChange false tx changeLog i = .ok (ccSpec tx entry) := by
  obtain ⟨hlen, hentry⟩ := List.getElem?_eq_some.mp hget
  have hno : ¬(i < 0 ∨ i ≥ (changeLog.length : Int)) := by omega
  unfold computeConsensusChange
  rw [dif_neg hno]
  simp only [List.get_eq_getElem, hentry]
  rw [foldlM_getBlockChecked_false tx revertedBlockChanges entry.revertedBlocks {}]
  simp only [exceptOkBind]
  rw [foldlM_getBlockChecked_false tx appliedBlockChanges entry.appliedBlocks _]
  rw [← List.foldl_map (pbOf tx) revertedBlockChanges,
    ← List.foldl_map (pbOf tx) appliedBlockChanges]
  rw [foldl_revertedBlockChanges, foldl_appliedBlockChanges]
  simp [ccSpec, revertedProcessedBlocks, appliedProcessedBlocks]

/-- An out-of-range index always yields the changelog bounds error. -/
theorem computeConsensusChange_out_of_range (debug : Bool) (tx : BlockStore)
    (changeLog : List changeEntry) (i : Int)
    (h : i < 0 ∨ i ≥ (changeLog.length : Int)) :
    computeConsensusChange debug tx changeLog i = .error .boundsError := by
  unfold computeConsensusChange
  rw [dif_pos h]

/-- With `debug` on, the lookup-and-accumulate fold panics as soon as a
listed id is missing from the store. -/
theorem foldlM_getBlockChecked_missing (tx : BlockStore)
    (step : ConsensusChange → processedBlock → ConsensusChange) :
    ∀ (ids : List BlockID) (cc : ConsensusChange),
      (∃ id ∈ ids, getBlockMap tx id = none) →
      (ids.foldlM (fun cc id => do
          let pb ← getBlockChecked true tx id
          pure (step cc pb)) cc)
        = .error .storePanic := by
  intro ids
  induction ids with
  | nil => intro cc h; simp at h
  | cons id rest ih =>
    intro cc h
    simp only [List.foldlM_cons]
    cases hid : getBlockMap tx id with
    | none =>
      have : getBlockChecked true tx id = .error .storePanic := by
        unfold getBlockChecked
        simp [hid]
      rw [this]
      rfl
    | some pb =>
      have hok : getBlockChecked true tx id = .ok pb := by
        unfold getBlockChecked
        simp [hid]
      rw [hok]
      simp only [exceptOkBind, pure_bind]
      refine ih _ ?h
      obtain ⟨x, hx, hxnone⟩ := h
      rcases List.mem_cons.mp hx with rfl | hxr
      · rw [hid] at hxnone
        cases hxnone
      · exact ⟨x, hxr, hxnone⟩

/-- With `debug` on, the change computer panics on any in-range entry that
references a block id missing from the store. -/
theorem computeConsensusChange_debug_missing (tx : BlockStore)
    (changeLog : List changeEntry) (i : Int) (entry : changeEntry)
    (h0 : 0 ≤ i) (hget : changeLog[i.toNat]? = some entry)
    (hmiss : ∃ id ∈ entry.revertedBlocks ++ entry.appliedBlocks,
      getBlockMap tx id = none) :
    computeConsensusChange true tx changeLog i = .error .storePanic := by
  obtain ⟨hlen, hentry⟩ := List.getElem?_eq_some.mp hget
  have hno : ¬(i < 0 ∨ i ≥ (changeLog.length : Int)) := by omega
  unfold computeConsensusChange
  rw [dif_neg hno]
  simp only [List.get_eq_getElem, hentry]
  by_cases hr : ∃ id ∈ entry.revertedBlocks, getBlockMap tx id = none
  · rw [foldlM_getBlockChecked_missing tx revertedBlockChanges entry.revertedBlocks {} hr]
    rfl
  · have hrsome : ∀ id ∈ entry.revertedBlocks, (getBlockMap tx id).isSome := by
      intro id hid
      rcases hx : getBlockMap tx id with _ | pb
      · exact absurd ⟨id, hid, hx⟩ hr
      · rfl
    rw [foldlM_getBlockChecked true tx revertedBlockChanges entry.revertedBlocks {} hrsome]
    simp only [exceptOkBind]
    have ha : ∃ id ∈ entry.appliedBlocks, getBlockMap tx id = none := by
      obtain ⟨x, hx, hxnone⟩ := hmiss
      rcases List.mem_append.mp hx with hxr | hxa
      · exact absurd ⟨x, hxr, hxnone⟩ hr
      · exact ⟨x, hxa, hxnone⟩
    exact foldlM_getBlockChecked_missing tx appliedBlockChanges entry.appliedBlocks _ ha

/-- The callback sequence the notifier issues for a computed change `cc`:
every full subscriber in registration order, then every digest subscriber in
registration order with the id lists taken from that same change. -/
def notifyEvents (cs : ConsensusSet) (cc : ConsensusChange) : List NotifyEvent :=
  cs.subscribers.map (fun s => NotifyEvent.change s cc) ++
  cs.digestSubscribers.map (fun d =>
    NotifyEvent.digest d (cc.RevertedBlocks.map Block.ID)
      (cc.AppliedBlocks.map Block.ID))

/-- The backfill loop succeeds when the computation succeeds at every listed
index, and pairs up position by position with those computations. -/
theorem backfillChanges_spec (debug : Bool) (tx : BlockStore)
    (changeLog : List changeEntry) :
    ∀ (idx : List Nat),
      (∀ i ∈ idx, ∃ cc,
        computeConsensusChange debug tx changeLog ((i : Nat) : Int) = .ok cc) →
      ∃ l, backfillChanges debug tx changeLog idx = .ok l ∧
        l.length = idx.length ∧
        ∀ (k i : Nat), idx[k]? = some i →
          ∃ cc, l[k]? = some cc ∧
            computeConsensusChange debug tx changeLog ((i : Nat) : Int) = .ok cc := by
  intro idx
  induction idx with
  | nil =>
    intro _
    refine ⟨[], rfl, rfl, ?p⟩
    intro k i hk
    simp at hk
  | cons j rest ih =>
    intro h
    obtain ⟨cc, hcc⟩ := h j (by simp)
    obtain ⟨l, hl, hlen, hpair⟩ := ih (fun x hx => h x (by simp [hx]))
    refine ⟨cc :: l, ?hb, by simp [hlen], ?hp⟩
    · unfold backfillChanges
      rw [hcc]
      simp only [exceptOkBind, pure_bind, hl]
      rfl
    · intro k i hk
      cases k with
      | zero =>
        simp only [List.getElem?_cons_zero, Option.some.injEq] at hk
        subst hk
        exact ⟨cc, by simp, hcc⟩
      | succ k =>
        simp only [List.getElem?_cons_succ] at hk
        obtain ⟨cc', hcc'1, hcc'2⟩ := hpair k i hk
        exact ⟨cc', by simpa using hcc'1, hcc'2⟩

/-- The path-collection loop succeeds when every listed height is on the
stored path, and returns the path ids position by position. -/
theorem buildCurrentPath_spec (tx : BlockStore) :
    ∀ (hs : List Nat),
      (∀ x ∈ hs, (getPath tx x).isSome) →
      ∃ p, buildCurrentPath tx hs = some p ∧
        p.length = hs.length ∧
        ∀ (k x : Nat), hs[k]? = some x → p[k]? = getPath tx x := by
  intro hs
  induction hs with
  | nil =>
    intro _
    refine ⟨[], rfl, rfl, ?p⟩
    intro k x hk
    simp at hk
  | cons j rest ih =>
    intro h
    obtain ⟨id, hid⟩ := Option.isSome_iff_exists.mp (h j (by simp))
    obtain ⟨p, hp, hlen, hpair⟩ := ih (fun x hx => h x (by simp [hx]))
    refine ⟨id :: p, ?hb, by simp [hlen], ?hp⟩
    · unfold buildCurrentPath
      rw [getPath] at hid ⊢
      rw [hid]
      simp only [Option.some_bind, hp]
      rfl
    · intro k x hk
      cases k with
      | zero =>
        simp only [List.getElem?_cons_zero, Option.some.injEq] at hk
        subst hk
        simp [hid]
      | succ k =>
        simp only [List.getElem?_cons_succ] at hk
        simpa using hpair k x hk

/-! ### Concrete fixtures used by witnesses and counterexamples -/

/-- A stored block record with diffs of both directions in every sequence
position that matters. -/
def pbW1 : processedBlock :=
  { Block := { id := 7 },
    SiacoinOutputDiffs :=
      [{ Direction := .apply, payload := 1 }, { Direction := .revert, payload := 2 }],
    FileContractDiffs := [{ Direction := .apply, payload := 3 }],
    SiafundOutputDiffs := [{ Direction := .revert, payload := 4 }],
    DelayedSiacoinOutputDiffs :=
      [{ Direction := .apply, payload := 5 }, { Direction := .apply, payload := 6 }],
    SiafundPoolDiffs :=
      [{ Direction := .apply, payload := 8 }, { Direction := .revert, payload := 9 }] }

/-- A second stored block record. -/
def pbW2 : processedBlock :=
  { Block := { id := 8 },
    SiacoinOutputDiffs := [{ Direction := .apply, payload := 11 }],
    SiafundPoolDiffs := [{ Direction := .apply, payload := 12 }] }

/-- A store holding the two records above and a two-block best path. -/
def txW : BlockStore :=
  { blockMap := fun id => if id = 7 then some pbW1 else if id = 8 then some pbW2 else none,
    height := 1,
    path := fun h => if h = 0 then some 3 else if h = 1 then some 7 else none }

/-- A change entry reverting block 7 and applying block 8. -/
def entryW : changeEntry := { revertedBlocks := [7], appliedBlocks := [8] }

/-- A consensus set with a one-entry log, two full subscribers and one digest
subscriber. -/
def csW : ConsensusSet :=
  { db := txW, changeLog := [entryW], subscribers := [0, 1], digestSubscribers := [2] }

/-- A store with no blocks and no path. -/
def emptyStore : BlockStore :=
  { blockMap := fun _ => none, height := 0, path := fun _ => none }

/-! ### The claims -/

/-- C1: for every reverted block processed by `computeConsensusChange`, the
block's siafund pool diffs are appended to `SiafundPoolDiffs` in reverse of
their stored order with `Direction` set unconditionally to `revert` (not
inverted), regardless of the stored direction; applied-block pool diffs
follow unchanged. -/
theorem siafundPoolDiffs_reverted_forced_revert (debug : Bool) (tx : BlockStore)
    (changeLog : List changeEntry) (i : Int) (entry : changeEntry)
    (cc : ConsensusChange)
    (h0 : 0 ≤ i) (hget : changeLog[i.toNat]? = some entry)
    (hdb : ∀ id ∈ entry.revertedBlocks ++ entry.appliedBlocks,
      (getBlockMap tx id).isSome)
    (hcc : computeConsensusChange debug tx changeLog i = .ok cc) :
    cc.SiafundPoolDiffs =
      (revertedProcessedBlocks tx entry).flatMap (fun pb =>
        pb.SiafundPoolDiffs.reverse.map
          (fun d => { d with Direction := DiffDirection.revert }))
      ++ (appliedProcessedBlocks tx entry).flatMap (fun pb => pb.SiafundPoolDiffs) := by
  rw [computeConsensusChange_spec debug tx changeLog i entry h0 hget hdb] at hcc
  injection hcc with h
  subst h
  rfl

/-- Witness for C1 at the concrete fixture: reverting block 7 (pool diffs
`[apply 8, revert 9]`) then applying block 8 (pool diff `[apply 12]`). -/
theorem siafundPoolDiffs_reverted_forced_revert_witness :
    (ccSpec txW entryW).SiafundPoolDiffs =
      (revertedProcessedBlocks txW entryW).flatMap (fun pb =>
        pb.SiafundPoolDiffs.reverse.map
          (fun d => { d with Direction := DiffDirection.revert }))
      ++ (appliedProcessedBlocks txW entryW).flatMap (fun pb => pb.SiafundPoolDiffs) :=
  siafundPoolDiffs_reverted_forced_revert false txW [entryW] 0 entryW
    (ccSpec txW entryW) (by decide) (by decide) (by decide) (by decide)

/-- C2: for every reverted block, `computeConsensusChange` appends the block
to `RevertedBlocks` and appends the four directional diff sequences iterated
in reverse of their stored order with `Direction` inverted; applied-block
contributions follow. -/
theorem reverted_diffs_reversed_inverted (debug : Bool) (tx : BlockStore)
    (changeLog : List changeEntry) (i : Int) (entry : changeEntry)
    (cc : ConsensusChange)
    (h0 : 0 ≤ i) (hget : changeLog[i.toNat]? = some entry)
    (hdb : ∀ id ∈ entry.revertedBlocks ++ entry.appliedBlocks,
      (getBlockMap tx id).isSome)
    (hcc : computeConsensusChange debug tx changeLog i = .ok cc) :
    cc.RevertedBlocks = (revertedProcessedBlocks tx entry).map (fun pb => pb.Block) ∧
    cc.SiacoinOutputDiffs =
      (revertedProcessedBlocks tx entry).flatMap (fun pb =>
        pb.SiacoinOutputDiffs.reverse.map
          (fun d => { d with Direction := d.Direction.invert }))
      ++ (appliedProcessedBlocks tx entry).flatMap (fun pb => pb.SiacoinOutputDiffs) ∧
    cc.FileContractDiffs =
      (revertedProcessedBlocks tx entry).flatMap (fun pb =>
        pb.FileContractDiffs.reverse.map
          (fun d => { d with Direction := d.Direction.invert }))
      ++ (appliedProcessedBlocks tx entry).flatMap (fun pb => pb.FileContractDiffs) ∧
    cc.SiafundOutputDiffs =
      (revertedProcessedBlocks tx entry).flatMap (fun pb =>
        pb.SiafundOutputDiffs.reverse.map
          (fun d => { d with Direction := d.Direction.invert }))
      ++ (appliedProcessedBlocks tx entry).flatMap (fun pb => pb.SiafundOutputDiffs) ∧
    cc.DelayedSiacoinOutputDiffs =
      (revertedProcessedBlocks tx entry).flatMap (fun pb =>
        pb.DelayedSiacoinOutputDiffs.reverse.map
          (fun d => { d with Direction := d.Direction.invert }))
      ++ (appliedProcessedBlocks tx entry).flatMap
          (fun pb => pb.DelayedSiacoinOutputDiffs) := by
  rw [computeConsensusChange_spec debug tx changeLog i entry h0 hget hdb] at hcc
  injection hcc with h
  subst h
  exact ⟨rfl, rfl, rfl, rfl, rfl⟩

/-- Witness for C2 at the concrete fixture. -/
theorem reverted_diffs_reversed_inverted_witness :
    (ccSpec txW entryW).RevertedBlocks =
      (revertedProcessedBlocks txW entryW).map (fun pb => pb.Block) ∧
    (ccSpec txW entryW).SiacoinOutputDiffs =
      (revertedProcessedBlocks txW entryW).flatMap (fun pb =>
        pb.SiacoinOutputDiffs.reverse.map
          (fun d => { d with Direction := d.Direction.invert }))
      ++ (appliedProcessedBlocks txW entryW).flatMap (fun pb => pb.SiacoinOutputDiffs) ∧
    (ccSpec txW entryW).FileContractDiffs =
      (revertedProcessedBlocks txW entryW).flatMap (fun pb =>
        pb.FileContractDiffs.reverse.map
          (fun d => { d with Direction := d.Direction.invert }))
      ++ (appliedProcessedBlocks txW entryW).flatMap (fun pb => pb.FileContractDiffs) ∧
    (ccSpec txW entryW).SiafundOutputDiffs =
      (revertedProcessedBlocks txW entryW).flatMap (fun pb =>
        pb.SiafundOutputDiffs.reverse.map
          (fun d => { d with Direction := d.Direction.invert }))
      ++ (appliedProcessedBlocks txW entryW).flatMap (fun pb => pb.SiafundOutputDiffs) ∧
    (ccSpec txW entryW).DelayedSiacoinOutputDiffs =
      (revertedProcessedBlocks txW entryW).flatMap (fun pb =>
        pb.DelayedSiacoinOutputDiffs.reverse.map
          (fun d => { d with Direction := d.Direction.invert }))
      ++ (appliedProcessedBlocks txW entryW).flatMap
          (fun pb => pb.DelayedSiacoinOutputDiffs) :=
  reverted_diffs_reversed_inverted false txW [entryW] 0 entryW
    (ccSpec txW entryW) (by decide) (by decide) (by decide) (by decide)

/-- C3: for every applied block id, in listed order, `computeConsensusChange`
appends the block to `AppliedBlocks` and appends all five diff sequences in
their stored order with direction unchanged, and in every output sequence all
reverted-block contributions precede all applied-block contributions. -/
theorem applied_diffs_in_order_after_reverted (debug : Bool) (tx : BlockStore)
    (changeLog : List changeEntry) (i : Int) (entry : changeEntry)
    (cc : ConsensusChange)
    (h0 : 0 ≤ i) (hget : changeLog[i.toNat]? = some entry)
    (hdb : ∀ id ∈ entry.revertedBlocks ++ entry.appliedBlocks,
      (getBlockMap tx id).isSome)
    (hcc : computeConsensusChange debug tx changeLog i = .ok cc) :
    cc.AppliedBlocks = (appliedProcessedBlocks tx entry).map (fun pb => pb.Block) ∧
    cc.SiacoinOutputDiffs =
      (revertedProcessedBlocks tx entry).flatMap (fun pb =>
        pb.SiacoinOutputDiffs.reverse.map
          (fun d => { d with Direction := d.Direction.invert }))
      ++ (appliedProcessedBlocks tx entry).flatMap (fun pb => pb.SiacoinOutputDiffs) ∧
    cc.FileContractDiffs =
      (revertedProcessedBlocks tx entry).flatMap (fun pb =>
        pb.FileContractDiffs.reverse.map
          (fun d => { d with Direction := d.Direction.invert }))
      ++ (appliedProcessedBlocks tx entry).flatMap (fun pb => pb.FileContractDiffs) ∧
    cc.SiafundOutputDiffs =
      (revertedProcessedBlocks tx entry).flatMap (fun pb =>
        pb.SiafundOutputDiffs.reverse.map
          (fun d => { d with Direction := d.Direction.invert }))
      ++ (appliedProcessedBlocks tx entry).flatMap (fun pb => pb.SiafundOutputDiffs) ∧
    cc.DelayedSiacoinOutputDiffs =
      (revertedProcessedBlocks tx entry).flatMap (fun pb =>
        pb.DelayedSiacoinOutputDiffs.reverse.map
          (fun d => { d with Direction := d.Direction.invert }))
      ++ (appliedProcessedBlocks tx entry).flatMap
          (fun pb => pb.DelayedSiacoinOutputDiffs) ∧
    cc.SiafundPoolDiffs =
      (revertedProcessedBlocks tx entry).flatMap (fun pb =>
        pb.SiafundPoolDiffs.reverse.map
          (fun d => { d with Direction := DiffDirection.revert }))
      ++ (appliedProcessedBlocks tx entry).flatMap (fun pb => pb.SiafundPoolDiffs) := by
  rw [computeConsensusChange_spec debug tx changeLog i entry h0 hget hdb] at hcc
  injection hcc with h
  subst h
  exact ⟨rfl, rfl, rfl, rfl, rfl, rfl⟩

/-- Witness for C3 at the concrete fixture. -/
theorem applied_diffs_in_order_after_reverted_witness :
    (ccSpec txW entryW).AppliedBlocks =
      (appliedProcessedBlocks txW entryW).map (fun pb => pb.Block) ∧
    (ccSpec txW entryW).SiacoinOutputDiffs =
      (revertedProcessedBlocks txW entryW).flatMap (fun pb =>
        pb.SiacoinOutputDiffs.reverse.map
          (fun d => { d with Direction := d.Direction.invert }))
      ++ (appliedProcessedBlocks txW entryW).flatMap (fun pb => pb.SiacoinOutputDiffs) ∧
    (ccSpec txW entryW).FileContractDiffs =
      (revertedProcessedBlocks txW entryW).flatMap (fun pb =>
        pb.FileContractDiffs.reverse.map
          (fun d => { d with Direction := d.Direction.invert }))
      ++ (appliedProcessedBlocks txW entryW).flatMap (fun pb => pb.FileContractDiffs) ∧
    (ccSpec txW entryW).SiafundOutputDiffs =
      (revertedProcessedBlocks txW entryW).flatMap (fun pb =>
        pb.SiafundOutputDiffs.reverse.map
          (fun d => { d with Direction := d.Direction.invert }))
      ++ (appliedProcessedBlocks txW entryW).flatMap (fun pb => pb.SiafundOutputDiffs) ∧
    (ccSpec txW entryW).DelayedSiacoinOutputDiffs =
      (revertedProcessedBlocks txW entryW).flatMap (fun pb =>
        pb.DelayedSiacoinOutputDiffs.reverse.map
          (fun d => { d with Direction := d.Direction.invert }))
      ++ (appliedProcessedBlocks txW entryW).flatMap
          (fun pb => pb.DelayedSiacoinOutputDiffs) ∧
    (ccSpec txW entryW).SiafundPoolDiffs =
      (revertedProcessedBlocks txW entryW).flatMap (fun pb =>
        pb.SiafundPoolDiffs.reverse.map
          (fun d => { d with Direction := DiffDirection.revert }))
      ++ (appliedProcessedBlocks txW entryW).flatMap (fun pb => pb.SiafundPoolDiffs) :=
  applied_diffs_in_order_after_reverted false txW [entryW] 0 entryW
    (ccSpec txW entryW) (by decide) (by decide) (by decide) (by decide)

/-- C4: the change computer and the public `ConsensusChange` query succeed
exactly on the in-range indices `0 ≤ i < len(changeLog)` when every block id
recorded in the log is present in the store, and fail outside that range. -/
theorem consensusChange_succeeds_iff_in_range (debug : Bool) (cs : ConsensusSet)
    (i : Int)
    (hdb : ∀ entry ∈ cs.changeLog, ∀ id ∈ entry.revertedBlocks ++ entry.appliedBlocks,
      (getBlockMap cs.db id).isSome) :
    ((∃ cc, computeConsensusChange debug cs.db cs.changeLog i = .ok cc) ↔
      (0 ≤ i ∧ i < (cs.changeLog.length : Int))) ∧
    ((∃ cc, ConsensusChangeQuery debug cs i = .ok cc) ↔
      (0 ≤ i ∧ i < (cs.changeLog.length : Int))) := by
  have hmain : (∃ cc, computeConsensusChange debug cs.db cs.changeLog i = .ok cc) ↔
      (0 ≤ i ∧ i < (cs.changeLog.length : Int)) := by
    constructor
    · rintro ⟨cc, hcc⟩
      by_contra hout
      have : i < 0 ∨ i ≥ (cs.changeLog.length : Int) := by omega
      rw [computeConsensusChange_out_of_range debug cs.db cs.changeLog i this] at hcc
      cases hcc
    · rintro ⟨h0, hlt⟩
      have hlen : i.toNat < cs.changeLog.length := by omega
      have hget : cs.changeLog[i.toNat]? = some cs.changeLog[i.toNat] :=
        List.getElem?_eq_some.mpr ⟨hlen, rfl⟩
      refine ⟨ccSpec cs.db cs.changeLog[i.toNat], ?s⟩
      exact computeConsensusChange_spec debug cs.db cs.changeLog i _ h0 hget
        (hdb _ (List.getElem_mem hlen))
  refine ⟨hmain, ?q⟩
  have hq : ∀ cc, ConsensusChangeQuery debug cs i = .ok cc ↔
      computeConsensusChange debug cs.db cs.changeLog i = .ok cc := by
    intro cc
    unfold ConsensusChangeQuery
    cases computeConsensusChange debug cs.db cs.changeLog i <;> simp
  rw [← hmain]
  constructor
  · rintro ⟨cc, hcc⟩
    exact ⟨cc, (hq cc).mp hcc⟩
  · rintro ⟨cc, hcc⟩
    exact ⟨cc, (hq cc).mpr hcc⟩

/-- Witness for C4 at the concrete fixture, index 0 of a one-entry log. -/
theorem consensusChange_succeeds_iff_in_range_witness :
    ((∃ cc, computeConsensusChange false csW.db csW.changeLog 0 = .ok cc) ↔
      (0 ≤ (0 : Int) ∧ (0 : Int) < (csW.changeLog.length : Int))) ∧
    ((∃ cc, ConsensusChangeQuery false csW 0 = .ok cc) ↔
      (0 ≤ (0 : Int) ∧ (0 : Int) < (csW.changeLog.length : Int))) :=
  consensusChange_succeeds_iff_in_range false csW 0 (by decide)

/-- C5 counterexample: with the DEBUG flag off, a change-log entry naming a
block id absent from the store does NOT make the operation report an error —
`computeConsensusChange` silently succeeds, substituting the zero block
record, so the claimed behaviour does not hold in all build configurations. -/
theorem missing_block_silently_tolerated_without_debug :
    computeConsensusChange false emptyStore
      [{ revertedBlocks := [0], appliedBlocks := [] }] 0
      = .ok { RevertedBlocks := [{ id := 0 }] } := by decide

/-- C5 amended: with DEBUG on, a missing block id makes the operation panic
(abort with `storePanic`); with DEBUG off it silently succeeds, producing the
change computed from zero records in place of the missing blocks. -/
theorem missing_block_debug_panics_release_continues (tx : BlockStore)
    (changeLog : List changeEntry) (i : Int) (entry : changeEntry)
    (h0 : 0 ≤ i) (hget : changeLog[i.toNat]? = some entry)
    (hmiss : ∃ id ∈ entry.revertedBlocks ++ entry.appliedBlocks,
      getBlockMap tx id = none) :
    computeConsensusChange true tx changeLog i = .error .storePanic ∧
    computeConsensusChange false tx changeLog i = .ok (ccSpec tx entry) :=
  ⟨computeConsensusChange_debug_missing tx changeLog i entry h0 hget hmiss,
   computeConsensusChange_false_spec tx changeLog i entry h0 hget⟩

/-- Witness for the amended C5 at a concrete missing block. -/
theorem missing_block_debug_panics_release_continues_witness :
    computeConsensusChange true emptyStore
      [{ revertedBlocks := [0], appliedBlocks := [] }] 0 = .error .storePanic ∧
    computeConsensusChange false emptyStore
      [{ revertedBlocks := [0], appliedBlocks := [] }] 0
      = .ok (ccSpec emptyStore { revertedBlocks := [0], appliedBlocks := [] }) :=
  missing_block_debug_panics_release_continues emptyStore
    [{ revertedBlocks := [0], appliedBlocks := [] }] 0
    { revertedBlocks := [0], appliedBlocks := [] }
    (by decide) (by decide) (by decide)

/-- C6: `ConsensusSetSubscribe` first registers the subscriber, then delivers
exactly one `ProcessConsensusChange` per existing change-log index, in
increasing index order, each equal to the computed change at that index; an
empty log yields zero deliveries. -/
theorem subscribe_backfills_every_index (debug : Bool) (cs : ConsensusSet)
    (subscriber : Subscriber)
    (hdb : ∀ entry ∈ cs.changeLog, ∀ id ∈ entry.revertedBlocks ++ entry.appliedBlocks,
      (getBlockMap cs.db id).isSome) :
    (ConsensusSetSubscribe debug cs subscriber).1.subscribers
      = cs.subscribers ++ [subscriber] ∧
    (∃ l, (ConsensusSetSubscribe debug cs subscriber).2 = .ok l ∧
      l.length = cs.changeLog.length ∧
      ∀ k : Nat, k < cs.changeLog.length →
        ∃ cc, l[k]? = some cc ∧
          computeConsensusChange debug cs.db cs.changeLog ((k : Nat) : Int) = .ok cc) ∧
    (cs.changeLog = [] → (ConsensusSetSubscribe debug cs subscriber).2 = .ok []) := by
  refine ⟨rfl, ?deliv, ?empty⟩
  · have hidx : ∀ j ∈ List.range cs.changeLog.length,
        ∃ cc, computeConsensusChange debug cs.db cs.changeLog ((j : Nat) : Int) = .ok cc := by
      intro j hj
      have hjlt : j < cs.changeLog.length := List.mem_range.mp hj
      have h0 : (0 : Int) ≤ ((j : Nat) : Int) := by omega
      have htn : ((j : Nat) : Int).toNat = j := by omega
      have hget : cs.changeLog[((j : Nat) : Int).toNat]? = some cs.changeLog[j] := by
        rw [htn]
        exact List.getElem?_eq_some.mpr ⟨hjlt, rfl⟩
      refine ⟨ccSpec cs.db cs.changeLog[j], ?s⟩
      exact computeConsensusChange_spec debug cs.db cs.changeLog _ _ h0 hget
        (hdb _ (List.getElem_mem hjlt))
    obtain ⟨l, hl, hlen, hpair⟩ :=
      backfillChanges_spec debug cs.db cs.changeLog (List.range cs.changeLog.length) hidx
    refine ⟨l, hl, by simp [hlen], ?pair⟩
    intro k hk
    have hkidx : (List.range cs.changeLog.length)[k]? = some k :=
      List.getElem?_range hk
    obtain ⟨cc, hcc1, hcc2⟩ := hpair k k hkidx
    exact ⟨cc, hcc1, hcc2⟩
  · intro hnil
    show backfillChanges debug cs.db cs.changeLog (List.range cs.changeLog.length) = .ok []
    rw [hnil]
    rfl

/-- Witness for C6 at the concrete fixture (one log entry, so exactly one
delivery). -/
theorem subscribe_backfills_every_index_witness :
    (ConsensusSetSubscribe false csW 9).1.subscribers = csW.subscribers ++ [9] ∧
    (∃ l, (ConsensusSetSubscribe false csW 9).2 = .ok l ∧
      l.length = csW.changeLog.length ∧
      ∀ k : Nat, k < csW.changeLog.length →
        ∃ cc, l[k]? = some cc ∧
          computeConsensusChange false csW.db csW.changeLog ((k : Nat) : Int) = .ok cc) ∧
    (csW.changeLog = [] → (ConsensusSetSubscribe false csW 9).2 = .ok []) :=
  subscribe_backfills_every_index false csW 9 (by decide)

/-- C7: `ConsensusSetDigestSubscribe` registers the subscriber and delivers
exactly one baseline `ProcessConsensusDigest` with an empty reverted list and
the full best path from height 0 to the current height inclusive; at height 0
the applied list holds only the genesis block id. -/
theorem digestSubscribe_delivers_baseline (debug : Bool) (cs : ConsensusSet)
    (subscriber : DigestSubscriber)
    (hp : ∀ h : Nat, h ≤ blockHeight cs.db → (getPath cs.db h).isSome) :
    (ConsensusSetDigestSubscribe debug cs subscriber).1.digestSubscribers
      = cs.digestSubscribers ++ [subscriber] ∧
    ∃ p, (ConsensusSetDigestSubscribe debug cs subscriber).2
        = .ok [(([] : List BlockID), p)] ∧
      p.length = blockHeight cs.db + 1 ∧
      (∀ h : Nat, h ≤ blockHeight cs.db → p[h]? = getPath cs.db h) ∧
      (blockHeight cs.db = 0 → ∃ g, getPath cs.db 0 = some g ∧ p = [g]) := by
  have hmem : ∀ x ∈ List.range (blockHeight cs.db + 1), (getPath cs.db x).isSome := by
    intro x hx
    exact hp x (Nat.lt_succ_iff.mp (List.mem_range.mp hx))
  obtain ⟨p, hbuild, hlen, hpair⟩ :=
    buildCurrentPath_spec cs.db (List.range (blockHeight cs.db + 1)) hmem
  have hplen : p.length = blockHeight cs.db + 1 := by
    rw [hlen, List.length_range]
  have hath : ∀ h : Nat, h ≤ blockHeight cs.db → p[h]? = getPath cs.db h := by
    intro h hh
    exact hpair h h (List.getElem?_range (by omega))
  refine ⟨?reg, p, ?deliv, hplen, hath, ?genesis⟩
  · simp only [ConsensusSetDigestSubscribe, hbuild]
  · simp only [ConsensusSetDigestSubscribe, hbuild]
  · intro h0
    obtain ⟨g, hg⟩ := Option.isSome_iff_exists.mp (hp 0 (by omega))
    have hp0 : p[0]? = some g := by
      rw [hath 0 (by omega), hg]
    cases p with
    | nil => rw [h0] at hplen; cases hplen
    | cons x t =>
      have ht : t = [] := by
        rw [h0] at hplen
        simpa using hplen
      subst ht
      simp only [List.getElem?_cons_zero, Option.some.injEq] at hp0
      exact ⟨g, hg, by rw [hp0]⟩

/-- Witness for C7 at the concrete fixture (height 1, path ids 3 and 7). -/
theorem digestSubscribe_delivers_baseline_witness :
    (ConsensusSetDigestSubscribe false csW 9).1.digestSubscribers
      = csW.digestSubscribers ++ [9] ∧
    ∃ p, (ConsensusSetDigestSubscribe false csW 9).2
        = .ok [(([] : List BlockID), p)] ∧
      p.length = blockHeight csW.db + 1 ∧
      (∀ h : Nat, h ≤ blockHeight csW.db → p[h]? = getPath csW.db h) ∧
      (blockHeight csW.db = 0 → ∃ g, getPath csW.db 0 = some g ∧ p = [g]) :=
  digestSubscribe_delivers_baseline false csW 9 (by decide)

/-- C8: on a notification pass the notifier delivers the computed change to
every full subscriber in registration order, then delivers to every digest
subscriber, in registration order, exactly the reverted and applied block id
lists of that same change. -/
theorem notifier_calls_full_then_digest (debug : Bool) (cs : ConsensusSet)
    (ce : changeEntry) (cc : ConsensusChange)
    (hcc : computeConsensusChange debug cs.db cs.changeLog
      ((cs.changeLog.length : Int) - 1) = .ok cc) :
    readlockUpdateSubscribers debug cs ce =
      .ok (cs.subscribers.map (fun s => NotifyEvent.change s cc) ++
        cs.digestSubscribers.map (fun d =>
          NotifyEvent.digest d (cc.RevertedBlocks.map Block.ID)
            (cc.AppliedBlocks.map Block.ID))) := by
  simp only [readlockUpdateSubscribers, hcc]

/-- Witness for C8 at the concrete fixture: subscribers 0 and 1 receive the
change, then digest subscriber 2 receives its id lists. -/
theorem notifier_calls_full_then_digest_witness :
    readlockUpdateSubscribers false csW { revertedBlocks := [], appliedBlocks := [] } =
      .ok (csW.subscribers.map (fun s => NotifyEvent.change s (ccSpec txW entryW)) ++
        csW.digestSubscribers.map (fun d =>
          NotifyEvent.digest d ((ccSpec txW entryW).RevertedBlocks.map Block.ID)
            ((ccSpec txW entryW).AppliedBlocks.map Block.ID))) :=
  notifier_calls_full_then_digest false csW
    { revertedBlocks := [], appliedBlocks := [] } (ccSpec txW entryW) (by decide)

/-- C9: the change computer is deterministic — two successful invocations
with the same index, change log and store contents return equal changes. -/
theorem computeConsensusChange_deterministic (debug : Bool) (tx : BlockStore)
    (changeLog : List changeEntry) (i : Int) (cc₁ cc₂ : ConsensusChange)
    (h₁ : computeConsensusChange debug tx changeLog i = .ok cc₁)
    (h₂ : computeConsensusChange debug tx changeLog i = .ok cc₂) :
    cc₁ = cc₂ := by
  rw [h₁] at h₂
  exact Except.ok.inj h₂

/-- Witness for C9 at the concrete fixture. -/
theorem computeConsensusChange_deterministic_witness :
    ccSpec txW entryW = ccSpec txW entryW :=
  computeConsensusChange_deterministic false txW [entryW] 0
    (ccSpec txW entryW) (ccSpec txW entryW) (by decide) (by decide)

/-- C10: `readlockUpdateSubscribers` never reads its `changeEntry` argument —
any two arguments produce the same callbacks — and the change it delivers is
the one computed at index `len(changeLog) - 1`. -/
theorem notifier_ignores_entry_argument (debug : Bool) (cs : ConsensusSet)
    (cc : ConsensusChange)
    (hcc : computeConsensusChange debug cs.db cs.changeLog
      ((cs.changeLog.length : Int) - 1) = .ok cc)
    (ce₁ ce₂ : changeEntry) :
    readlockUpdateSubscribers debug cs ce₁ = readlockUpdateSubscribers debug cs ce₂ ∧
    readlockUpdateSubscribers debug cs ce₁ = .ok (notifyEvents cs cc) := by
  constructor
  · rfl
  · simp only [readlockUpdateSubscribers, hcc, notifyEvents]

/-- Witness for C10: two unrelated entries given to the notifier produce
identical callback sequences, namely those for the last log entry. -/
theorem notifier_ignores_entry_argument_witness :
    readlockUpdateSubscribers false csW { revertedBlocks := [1], appliedBlocks := [] } =
      readlockUpdateSubscribers false csW { revertedBlocks := [], appliedBlocks := [2] } ∧
    readlockUpdateSubscribers false csW { revertedBlocks := [1], appliedBlocks := [] } =
      .ok (notifyEvents csW (ccSpec txW entryW)) :=
  notifier_ignores_entry_argument false csW (ccSpec txW entryW) (by decide)
    { revertedBlocks := [1], appliedBlocks := [] }
    { revertedBlocks := [], appliedBlocks := [2] }
